import Mathlib

/-!
Verification of the sector-range map engine of the `kramer` disk-recovery
tool (`src/mapping.rs`, `src/recovery.rs`), as a shallow embedding in Lean.

Machine integers: `usize` values (sector indices, lengths) are modelled as
`Nat`; the one place where the width of a machine integer matters for a
claim is the `u16 * u16` multiplication in `Recover::set_buf_capacity`,
which is modelled with an explicit `% 2 ^ 16` (release-mode wrapping; a
debug build panics instead at the same inputs).

Panics (`Option::unwrap` on `None` inside `MapFile::defrag`) are modelled
by returning `none`; the `while` loops of `defrag`, whose termination is
not structurally evident, are modelled with an explicit fuel parameter,
where running out of fuel also yields `none`.
-/

namespace Kramer

/-- Half-open sector range `[start, end)`; from `Domain` in `src/mapping.rs`.
Both fields are `usize` in the source. -/
structure Domain where
  start : Nat
  «end» : Nat
deriving DecidableEq, Repr

/-- Source `Domain::len`: `end - start` (`usize` subtraction; on the valid domains
of the claims `start ≤ end`, so Nat truncated subtraction agrees). -/
def Domain.len (self : Domain) : Nat :=
  self.«end» - self.start

/-- The `Stage` enum from `src/mapping.rs`. The isolation level is a `u8` in the
source; no arithmetic is performed on it, only comparison, so `Nat` is a
faithful carrier. -/
inductive Stage where
  | Untested
  | ForIsolation (level : Nat)
  | Damaged
deriving DecidableEq, Repr

/-- The derived `PartialOrd` `<` on `Stage`: variant order
`Untested < ForIsolation _ < Damaged`, and `ForIsolation` payloads compared
when both sides are `ForIsolation`. -/
def Stage.ltb : Stage → Stage → Bool
  | .Untested, .Untested => false
  | .Untested, _ => true
  | .ForIsolation _, .Untested => false
  | .ForIsolation a, .ForIsolation b => a < b
  | .ForIsolation _, .Damaged => true
  | .Damaged, _ => false

/-- The `MapCluster` struct from `src/mapping.rs`: a domain tagged with a stage.
(The in-memory `Cluster` type additionally carries an `Option<Vec<u8>>`
data payload, which `MapCluster::from` drops; every map operation under
verification consumes only the domain and stage, so `MapCluster` is the
carrier used throughout.) -/
structure MapCluster where
  domain : Domain
  stage : Stage
deriving DecidableEq, Repr

/-- Source `MapCluster::subdivide` from `src/mapping.rs`: emit
`floor(domain_len / cluster_len)` full groups of `cluster_len` sectors,
then unconditionally push a final cluster from the running `start` to the
original `domain.end`. The source computes the group count as
`(domain_len as f64 / cluster_len as f64).floor() as usize`, which equals
Nat division for the in-range values of these claims; the running `start`
after `i` loop iterations is `domain.start + i * cluster_len`. -/
def MapCluster.subdivide (self : MapCluster) (cluster_len : Nat) : List MapCluster :=
  let domain_len := self.domain.len
  (List.range (domain_len / cluster_len)).map (fun i =>
    { domain := { start := self.domain.start + i * cluster_len,
                  «end» := self.domain.start + (i + 1) * cluster_len },
      stage := self.stage })
  ++ [{ domain := { start := self.domain.start + (domain_len / cluster_len) * cluster_len,
                    «end» := self.domain.«end» },
        stage := self.stage }]

/-- The `MapFile` struct from `src/mapping.rs` (`sector_size` is a `u16`). -/
structure MapFile where
  sector_size : Nat
  domain : Domain
  map : List MapCluster
deriving DecidableEq, Repr

/-- The per-existing-cluster body of the `for` loop of `MapFile::update`
(`src/mapping.rs` lines 169–223): what gets pushed onto `new_map` for one
existing `map_cluster`, given the incoming `new_cluster`. Mirrors the three
branches of the source, including the inner containment check being made
against the just-cropped `map_cluster.domain.end` (which at that point
equals `new_cluster.domain.start`). -/
def updateStep (new_cluster map_cluster : MapCluster) : List MapCluster :=
  if new_cluster.domain.start < map_cluster.domain.start ∧
      new_cluster.domain.«end» < map_cluster.domain.«end» then
    [{ map_cluster with
        domain := { map_cluster.domain with start := new_cluster.domain.«end» } }]
  else if new_cluster.domain.«end» < map_cluster.domain.«end» then
    let domain_end := map_cluster.domain.«end»
    let cropped : MapCluster :=
      { map_cluster with
          domain := { map_cluster.domain with «end» := new_cluster.domain.start } }
    if new_cluster.domain.«end» < cropped.domain.«end» then
      [cropped,
       { domain := { start := new_cluster.domain.«end», «end» := domain_end },
         stage := cropped.stage }]
    else
      [cropped]
  else
    [map_cluster]

/-- Source `MapFile::update` from `src/mapping.rs`: `new_map` starts as the
one-element vector holding (the `MapCluster` projection of) `new_cluster`,
then the loop pushes `updateStep`'s output for each existing cluster in
order. -/
def MapFile.update (self : MapFile) (new_cluster : MapCluster) : MapFile :=
  { self with
      map := new_cluster :: (self.map.map (updateStep new_cluster)).flatten }

/-- The loop of `MapFile::get_stage` (`src/mapping.rs` lines 233–247):
`recover_stage` starts as `Damaged`; an `Untested` cluster returns
immediately; a `ForIsolation` cluster replaces the accumulator when the
accumulator is still `Damaged` or the cluster's stage is `<` it (derived
`PartialOrd`); `Damaged` clusters are skipped. -/
def getStageLoop : List MapCluster → Stage → Stage
  | [], recover_stage => recover_stage
  | cluster :: rest, recover_stage =>
    match cluster.stage with
    | .Untested => .Untested
    | .ForIsolation l =>
      if recover_stage == .Damaged || Stage.ltb (.ForIsolation l) recover_stage then
        getStageLoop rest (.ForIsolation l)
      else
        getStageLoop rest recover_stage
    | .Damaged => getStageLoop rest recover_stage

/-- Source `MapFile::get_stage` from `src/mapping.rs`. -/
def MapFile.get_stage (self : MapFile) : Stage :=
  getStageLoop self.map .Damaged

/-- Source `MapFile::get_clusters` from `src/mapping.rs`: `filter_map` keeping
exactly the clusters whose stage `==` the argument. -/
def MapFile.get_clusters (self : MapFile) (stage : Stage) : List MapCluster :=
  self.map.filterMap (fun mc => if mc.stage == stage then some mc else none)

/-- The lookup `self.map.iter().find(|c| c.domain.start == pos)` as used by
`MapFile::defrag`. -/
def findStart (map : List MapCluster) (pos : Nat) : Option MapCluster :=
  map.find? (fun c => c.domain.start == pos)

/-- The inner `while stage_common` loop of `MapFile::defrag`
(`src/mapping.rs` lines 288–297). Given the run's stage
(`new_cluster.stage`) and the current `start_cluster`, it sets
`end_cluster := start_cluster`, then looks up the cluster starting at
`end_cluster.domain.end` — `unwrap` of a failed lookup is a panic,
modelled as `none` — and continues while that cluster's stage equals the
run's stage. Returns `(end_cluster, start_cluster)` as left for the outer
loop. Fuel exhaustion (a non-terminating scan) is also `none`. -/
def defragInner (map : List MapCluster) (runStage : Stage) :
    Nat → MapCluster → Option (MapCluster × MapCluster)
  | 0, _ => none
  | fuel + 1, start_cluster =>
    let end_cluster := start_cluster
    match findStart map end_cluster.domain.«end» with
    | none => none
    | some next =>
      if runStage == next.stage then
        defragInner map runStage fuel next
      else
        some (end_cluster, next)

/-- The outer `while pos < self.domain.end` loop of `MapFile::defrag`
(`src/mapping.rs` lines 280–303): each iteration starts a run at
`start_cluster`, drives the inner loop, then emits one cluster from the
run's start to the last common-stage cluster's end and advances `pos`
there. -/
def defragOuter (map : List MapCluster) (domainEnd : Nat) :
    Nat → Nat → MapCluster → List MapCluster → Option (List MapCluster)
  | 0, _, _, _ => none
  | fuel + 1, pos, start_cluster, new_map =>
    if pos < domainEnd then
      match defragInner map start_cluster.stage (fuel + 1) start_cluster with
      | none => none
      | some (end_cluster, next_start) =>
        let new_cluster : MapCluster :=
          { domain := { start := start_cluster.domain.start,
                        «end» := end_cluster.domain.«end» },
            stage := start_cluster.stage }
        defragOuter map domainEnd fuel new_cluster.domain.«end» next_start
          (new_map ++ [new_cluster])
    else
      some new_map

/-- Source `MapFile::defrag` from `src/mapping.rs`: fetch the cluster starting at
`pos = 0` (`unwrap`: panic, i.e. `none`, when absent), run the outer loop,
and replace `self.map` with the accumulated `new_map`. `fuel` bounds the
number of loop iterations; every concrete evaluation below uses fuel far
exceeding the cluster count, so `none` results reflect panics, not
exhaustion. -/
def MapFile.defrag (self : MapFile) (fuel : Nat) : Option MapFile :=
  match findStart self.map 0 with
  | none => none
  | some first =>
    (defragOuter self.map self.domain.«end» fuel 0 first []).map
      (fun new_map => { self with map := new_map })

/-- The `Args` struct from `src/main.rs`, restricted to the two fields
`Recover::set_buf_capacity` reads. Both are `u16` in the source (defaults:
`cluster_length = 128`, `sector_size = FB_SECTOR_SIZE = 2048`). -/
structure Args where
  cluster_length : Nat
  sector_size : Nat
deriving DecidableEq, Repr

/-- Source `Recover::set_buf_capacity` from `src/recovery.rs`:
`(self.config.sector_size * self.config.cluster_length) as usize`. The
multiplication happens at type `u16`, so in a release build the product is
reduced `% 2 ^ 16` before the `as usize` widening (a debug build panics on
overflow at the same inputs). -/
def set_buf_capacity (config : Args) : Nat :=
  (config.sector_size * config.cluster_length) % 2 ^ 16

/-- The isolation levels present in a cluster list, in order (used to state
the `get_stage` claims). -/
def isoLevels (map : List MapCluster) : List Nat :=
  map.filterMap (fun c =>
    match c.stage with
    | .ForIsolation n => some n
    | _ => none)

/-- Whether a cluster list exactly tiles a domain: the list is nonempty,
starts at `d.start`, each cluster ends where the next starts, and the last
ends at `d.end`; used to state the tiling-invariant claims. -/
def tiles : List MapCluster → Domain → Prop
  | [], _ => False
  | [c], d => c.domain.start = d.start ∧ c.domain.«end» = d.«end»
  | c :: c' :: rest, d =>
    c.domain.start = d.start ∧ c.domain.«end» = c'.domain.start ∧
      tiles (c' :: rest) { start := c'.domain.start, «end» := d.«end» }

end Kramer

namespace Kramer

/-! ### Concrete evaluations of the map operations -/

/-- C2: the claim says `update()` with a new cluster whose domain fully
contains an existing cluster's domain discards the contained cluster. On
the map `[0,2)` holding the single cluster `[0,1)=Damaged`, updating with
the containing cluster `[0,2)=ForIsolation(0)` instead falls into the
source's `else` ("No overlap … Transfer") branch, so the contained cluster
`[0,1)=Damaged` — old domain, old stage — remains in the resulting map. -/
theorem update_keeps_contained_cluster :
    (MapFile.update ⟨2048, ⟨0, 2⟩, [⟨⟨0, 1⟩, .Damaged⟩]⟩ ⟨⟨0, 2⟩, .ForIsolation 0⟩).map
      = [⟨⟨0, 2⟩, .ForIsolation 0⟩, ⟨⟨0, 1⟩, .Damaged⟩] ∧
    (⟨⟨0, 1⟩, .Damaged⟩ : MapCluster) ∈
      (MapFile.update ⟨2048, ⟨0, 2⟩, [⟨⟨0, 1⟩, .Damaged⟩]⟩ ⟨⟨0, 2⟩, .ForIsolation 0⟩).map := by
  decide

/-- C3: the claim says a strictly interior update replaces the straddling
cluster by left remainder, new cluster, right remainder. On the map `[0,4)`
holding the single cluster `[0,4)=Untested`, updating with the strictly
interior `[1,3)=ForIsolation(0)` yields only the new cluster and the left
remainder `[0,1)`: the fracture branch's inner test compares
`new_cluster.domain.end` against the already-cropped `map_cluster.domain.end`
(equal to `new_cluster.domain.start`), so the right remainder `[3,4)` is
never emitted. -/
theorem update_drops_right_remainder :
    (MapFile.update ⟨2048, ⟨0, 4⟩, [⟨⟨0, 4⟩, .Untested⟩]⟩ ⟨⟨1, 3⟩, .ForIsolation 0⟩).map
      = [⟨⟨1, 3⟩, .ForIsolation 0⟩, ⟨⟨0, 1⟩, .Untested⟩] ∧
    (MapFile.update ⟨2048, ⟨0, 4⟩, [⟨⟨0, 4⟩, .Untested⟩]⟩ ⟨⟨1, 3⟩, .ForIsolation 0⟩).map
      ≠ [⟨⟨0, 1⟩, .Untested⟩, ⟨⟨1, 3⟩, .ForIsolation 0⟩, ⟨⟨3, 4⟩, .Untested⟩] := by
  decide

/-- C1: the single-cluster map `[0,3)=Untested` tiles its domain; one
in-domain `update()` with `[1,2)=ForIsolation(0)` produces the cluster list
`[[1,2)=ForIsolation(0), [0,1)=Untested]` — the new cluster is prepended
rather than placed in sort order, and the range `[2,3)` is lost — which no
longer tiles `[0,3)`; the subsequent `defrag()` panics (modelled `none`,
with fuel 100 far above the two-cluster list's needs), because its inner
scan unwraps a lookup for a cluster starting at `[1,2)`'s end and none
exists. -/
theorem update_then_defrag_breaks_tiling :
    tiles [⟨⟨0, 3⟩, .Untested⟩] ⟨0, 3⟩ ∧
    (MapFile.update ⟨2048, ⟨0, 3⟩, [⟨⟨0, 3⟩, .Untested⟩]⟩ ⟨⟨1, 2⟩, .ForIsolation 0⟩).map
      = [⟨⟨1, 2⟩, .ForIsolation 0⟩, ⟨⟨0, 1⟩, .Untested⟩] ∧
    ¬ tiles [⟨⟨1, 2⟩, .ForIsolation 0⟩, ⟨⟨0, 1⟩, .Untested⟩] ⟨0, 3⟩ ∧
    (MapFile.update ⟨2048, ⟨0, 3⟩, [⟨⟨0, 3⟩, .Untested⟩]⟩ ⟨⟨1, 2⟩, .ForIsolation 0⟩).defrag 100
      = none :=
  ⟨⟨rfl, rfl⟩, by decide, fun h => absurd h.1 (by decide), by decide⟩

/-- C4: on the repository's own `test_defrag` map — 8 unit clusters over
`[0,8)` with stages Untested ×3, ForIsolation(0) ×2, ForIsolation(1),
ForIsolation(0), Damaged — `defrag()` does not return the expected
5-cluster merge: it panics (modelled `none`, fuel 100 ≫ 8), because after
absorbing the final run the inner scan unwraps a lookup for a cluster
starting at `domain.end = 8`, which does not exist in any exact tiling. -/
theorem defrag_panics_on_own_test_map :
    MapFile.defrag
      ⟨1, ⟨0, 8⟩,
        [⟨⟨0, 1⟩, .Untested⟩, ⟨⟨1, 2⟩, .Untested⟩, ⟨⟨2, 3⟩, .Untested⟩,
         ⟨⟨3, 4⟩, .ForIsolation 0⟩, ⟨⟨4, 5⟩, .ForIsolation 0⟩,
         ⟨⟨5, 6⟩, .ForIsolation 1⟩, ⟨⟨6, 7⟩, .ForIsolation 0⟩,
         ⟨⟨7, 8⟩, .Damaged⟩]⟩ 100 = none ∧
    ∀ new_map : List MapCluster,
      MapFile.defrag
        ⟨1, ⟨0, 8⟩,
          [⟨⟨0, 1⟩, .Untested⟩, ⟨⟨1, 2⟩, .Untested⟩, ⟨⟨2, 3⟩, .Untested⟩,
           ⟨⟨3, 4⟩, .ForIsolation 0⟩, ⟨⟨4, 5⟩, .ForIsolation 0⟩,
           ⟨⟨5, 6⟩, .ForIsolation 1⟩, ⟨⟨6, 7⟩, .ForIsolation 0⟩,
           ⟨⟨7, 8⟩, .Damaged⟩]⟩ 100 ≠ some ⟨1, ⟨0, 8⟩, new_map⟩ := by
  refine ⟨by decide, ?_⟩
  intro new_map h
  rw [show MapFile.defrag
      ⟨1, ⟨0, 8⟩,
        [⟨⟨0, 1⟩, .Untested⟩, ⟨⟨1, 2⟩, .Untested⟩, ⟨⟨2, 3⟩, .Untested⟩,
         ⟨⟨3, 4⟩, .ForIsolation 0⟩, ⟨⟨4, 5⟩, .ForIsolation 0⟩,
         ⟨⟨5, 6⟩, .ForIsolation 1⟩, ⟨⟨6, 7⟩, .ForIsolation 0⟩,
         ⟨⟨7, 8⟩, .Damaged⟩]⟩ 100 = none from by decide] at h
  exact Option.noConfusion h

/-- C7: the claim asserts `defrag(defrag(m)) = defrag(m)` for every map
whose clusters tile its domain. Already on `MapFile::default()` — domain
`[0,1)`, single cluster `[0,1)=Untested`, which tiles — `defrag()` yields
no cluster list at all: it panics (modelled `none`, fuel 100) on the
unwrap of the lookup for a cluster starting at `domain.end`, so neither
side of the claimed equation is a defragmented map. -/
theorem defrag_panics_on_default_map :
    tiles [⟨⟨0, 1⟩, .Untested⟩] ⟨0, 1⟩ ∧
    MapFile.defrag ⟨2048, ⟨0, 1⟩, [⟨⟨0, 1⟩, .Untested⟩]⟩ 100 = none :=
  ⟨⟨rfl, rfl⟩, by decide⟩

/-- C6: subdividing `[0,8)` with group length 3 gives exactly
`[0,3), [3,6), [6,8)` as the claim's example states; but when the group
length divides the domain length the unconditional final push emits a
zero-length tail: subdividing `[0,6)` with group length 3 yields
`[0,3), [3,6), [6,6)`, whose last element has length 0, contradicting the
claim's "no returned sub-range zero-length". -/
theorem subdivide_emits_zero_length_tail :
    MapCluster.subdivide ⟨⟨0, 8⟩, .Untested⟩ 3
      = [⟨⟨0, 3⟩, .Untested⟩, ⟨⟨3, 6⟩, .Untested⟩, ⟨⟨6, 8⟩, .Untested⟩] ∧
    MapCluster.subdivide ⟨⟨0, 6⟩, .Untested⟩ 3
      = [⟨⟨0, 3⟩, .Untested⟩, ⟨⟨3, 6⟩, .Untested⟩, ⟨⟨6, 6⟩, .Untested⟩] ∧
    (⟨⟨6, 6⟩, .Untested⟩ : MapCluster) ∈ MapCluster.subdivide ⟨⟨0, 6⟩, .Untested⟩ 3 ∧
    Domain.len ⟨6, 6⟩ = 0 := by
  decide

/-- C9: with the default configuration (`sector_size = 2048`,
`cluster_length = 128`) the buffer capacity computed by
`set_buf_capacity` is the `u16`-wrapped product `0`, not the exact
mathematical product `2048 × 128 = 262144` the claim requires (a debug
build panics on the overflow instead). -/
theorem set_buf_capacity_wraps_at_defaults :
    set_buf_capacity ⟨128, 2048⟩ = 0 ∧
    2048 * 128 = 262144 ∧ set_buf_capacity ⟨128, 2048⟩ ≠ 2048 * 128 := by
  decide

/-- C10: on a map whose cluster list is empty, the `get_stage` loop never
runs and the initial `recover_stage = Damaged` is returned, for any sector
size and any total domain. -/
theorem get_stage_empty_map_damaged (sector_size : Nat) (d : Domain) :
    (MapFile.mk sector_size d []).get_stage = Stage.Damaged :=
  rfl

end Kramer

namespace Kramer

/-! ### General theorems about `get_stage` and `get_clusters` -/

/-- Definitional unfolding of `Nat.min`, used to reason about the running
minimum kept by the `get_stage` loop. -/
theorem natMin_eq (m n : Nat) : Nat.min m n = if m ≤ n then m else n :=
  rfl

/-- Characterization of the `get_stage` loop when the accumulator already
holds `ForIsolation m`: an `Untested` cluster still wins, and otherwise the
result is `ForIsolation` of the running minimum of `m` and the remaining
isolation levels. -/
theorem getStageLoop_iso (l : List MapCluster) :
    ∀ m : Nat, getStageLoop l (.ForIsolation m) =
      if l.any (fun c => c.stage == Stage.Untested) then Stage.Untested
      else Stage.ForIsolation ((isoLevels l).foldl Nat.min m) := by
  induction l with
  | nil => intro m; simp [getStageLoop, isoLevels]
  | cons c rest ih =>
    intro m
    match hc : c.stage with
    | .Untested => simp [getStageLoop, hc]
    | .ForIsolation n =>
      have hcond : ((Stage.ForIsolation m == Stage.Damaged) ||
          Stage.ltb (.ForIsolation n) (.ForIsolation m)) = decide (n < m) := by
        simp [Stage.ltb]
      simp only [getStageLoop, hc, hcond, List.any_cons, isoLevels,
        List.filterMap_cons]
      by_cases h : n < m
      · have hmin : Nat.min m n = n := by rw [natMin_eq, if_neg (by omega)]
        simp [h, ih, isoLevels, hmin]
      · have hmin : Nat.min m n = m := by rw [natMin_eq, if_pos (by omega)]
        simp [h, ih, isoLevels, hmin]
    | .Damaged =>
      simp [getStageLoop, hc, ih, isoLevels, List.filterMap_cons]

/-- Characterization of the `get_stage` loop from its initial accumulator
`Damaged`: `Untested` wins, else `ForIsolation` of the minimum level
present, else `Damaged`. -/
theorem getStageLoop_damaged (l : List MapCluster) :
    getStageLoop l .Damaged =
      if l.any (fun c => c.stage == Stage.Untested) then Stage.Untested
      else
        match isoLevels l with
        | [] => Stage.Damaged
        | n :: ns => Stage.ForIsolation (ns.foldl Nat.min n) := by
  induction l with
  | nil => simp [getStageLoop, isoLevels]
  | cons c rest ih =>
    match hc : c.stage with
    | .Untested => simp [getStageLoop, hc]
    | .ForIsolation n =>
      simp only [getStageLoop, hc, beq_self_eq_true, Bool.true_or, if_true,
        getStageLoop_iso, List.any_cons, isoLevels, List.filterMap_cons]
      simp [isoLevels]
    | .Damaged =>
      simp [getStageLoop, hc, ih, isoLevels, List.filterMap_cons]

/-- A left fold of `Nat.min` lands on one of the folded values. -/
theorem foldl_min_mem (ns : List Nat) : ∀ n : Nat, ns.foldl Nat.min n ∈ n :: ns := by
  induction ns with
  | nil => intro n; simp
  | cons a tl ih =>
    intro n
    simp only [List.foldl_cons]
    rcases List.mem_cons.mp (ih (Nat.min n a)) with h' | h'
    · rw [h', natMin_eq]
      by_cases hle : n ≤ a
      · rw [if_pos hle]; exact List.mem_cons_self _ _
      · rw [if_neg hle]
        exact List.mem_cons_of_mem _ (List.mem_cons_self _ _)
    · exact List.mem_cons_of_mem _ (List.mem_cons_of_mem _ h')

/-- A left fold of `Nat.min` is a lower bound of all the folded values. -/
theorem foldl_min_le (ns : List Nat) :
    ∀ n j : Nat, j ∈ n :: ns → ns.foldl Nat.min n ≤ j := by
  induction ns with
  | nil =>
    intro n j hj
    simp at hj
    simp [hj]
  | cons a tl ih =>
    intro n j hj
    simp only [List.foldl_cons]
    have hle : tl.foldl Nat.min (Nat.min n a) ≤ Nat.min n a :=
      ih (Nat.min n a) (Nat.min n a) (List.mem_cons_self _ _)
    rcases List.mem_cons.mp hj with h | h
    · subst h
      exact Nat.le_trans hle (Nat.min_le_left _ _)
    · rcases List.mem_cons.mp h with h' | h'
      · subst h'
        exact Nat.le_trans hle (Nat.min_le_right _ _)
      · exact ih (Nat.min n a) j (List.mem_cons_of_mem _ h')

/-- Bridge between the Boolean `any` scan over stages and its propositional
reading. -/
theorem any_untested_iff (l : List MapCluster) :
    l.any (fun c => c.stage == Stage.Untested) = true ↔
      ∃ c ∈ l, c.stage = Stage.Untested := by
  simp [List.any_eq_true]

/-- C5: `get_stage()` returns `Untested` if any cluster's stage is
`Untested`; otherwise, if any isolation level is present, it returns
`ForIsolation k` where `k` is a level occurring among the clusters and a
lower bound of every occurring level (the minimum); otherwise it returns
`Damaged`. -/
theorem get_stage_correct (m : MapFile) :
    ((∃ c ∈ m.map, c.stage = Stage.Untested) → m.get_stage = Stage.Untested) ∧
    ((∀ c ∈ m.map, c.stage ≠ Stage.Untested) → isoLevels m.map ≠ [] →
      ∃ k, m.get_stage = Stage.ForIsolation k ∧ k ∈ isoLevels m.map ∧
        ∀ j ∈ isoLevels m.map, k ≤ j) ∧
    ((∀ c ∈ m.map, c.stage ≠ Stage.Untested) → isoLevels m.map = [] →
      m.get_stage = Stage.Damaged) := by
  have hds : m.get_stage = getStageLoop m.map .Damaged := rfl
  refine ⟨?_, ?_, ?_⟩
  · intro h
    rw [hds, getStageLoop_damaged, if_pos ((any_untested_iff m.map).mpr h)]
  · intro h hne
    have hany : m.map.any (fun c => c.stage == Stage.Untested) = false := by
      rw [← Bool.not_eq_true]
      intro hx
      rcases (any_untested_iff m.map).mp hx with ⟨c, hc, hcu⟩
      exact h c hc hcu
    rw [hds, getStageLoop_damaged, hany, if_neg (by simp)]
    match hiso : isoLevels m.map with
    | [] => exact absurd hiso hne
    | n :: ns =>
      exact ⟨ns.foldl Nat.min n, rfl, foldl_min_mem ns n,
        fun j hj => foldl_min_le ns n j hj⟩
  · intro h hiso
    have hany : m.map.any (fun c => c.stage == Stage.Untested) = false := by
      rw [← Bool.not_eq_true]
      intro hx
      rcases (any_untested_iff m.map).mp hx with ⟨c, hc, hcu⟩
      exact h c hc hcu
    rw [hds, getStageLoop_damaged, hany, if_neg (by simp), hiso]

/-- Witness for C5: each arm of `get_stage_correct` applied at a concrete
map — one with an `Untested` cluster, one with only `ForIsolation` levels 2
and 1 (minimum 1), one with only `Damaged`. -/
theorem get_stage_correct_witness :
    MapFile.get_stage ⟨2048, ⟨0, 4⟩, [⟨⟨0, 2⟩, .Damaged⟩, ⟨⟨2, 4⟩, .Untested⟩]⟩
      = Stage.Untested ∧
    (∃ k, MapFile.get_stage
        ⟨2048, ⟨0, 4⟩, [⟨⟨0, 2⟩, .ForIsolation 2⟩, ⟨⟨2, 4⟩, .ForIsolation 1⟩]⟩
        = Stage.ForIsolation k ∧
      k ∈ isoLevels [⟨⟨0, 2⟩, .ForIsolation 2⟩, ⟨⟨2, 4⟩, .ForIsolation 1⟩] ∧
      ∀ j ∈ isoLevels [⟨⟨0, 2⟩, .ForIsolation 2⟩, ⟨⟨2, 4⟩, .ForIsolation 1⟩], k ≤ j) ∧
    MapFile.get_stage ⟨2048, ⟨0, 4⟩, [⟨⟨0, 4⟩, .Damaged⟩]⟩ = Stage.Damaged :=
  ⟨(get_stage_correct ⟨2048, ⟨0, 4⟩, [⟨⟨0, 2⟩, .Damaged⟩, ⟨⟨2, 4⟩, .Untested⟩]⟩).1
      ⟨⟨⟨2, 4⟩, .Untested⟩, by decide, rfl⟩,
   (get_stage_correct
      ⟨2048, ⟨0, 4⟩, [⟨⟨0, 2⟩, .ForIsolation 2⟩, ⟨⟨2, 4⟩, .ForIsolation 1⟩]⟩).2.1
      (by decide) (by decide),
   (get_stage_correct ⟨2048, ⟨0, 4⟩, [⟨⟨0, 4⟩, .Damaged⟩]⟩).2.2 (by decide) (by decide)⟩

/-- The `filter_map` of `get_clusters` is the filter on stage equality. -/
theorem get_clusters_eq_filter (l : List MapCluster) (s : Stage) :
    l.filterMap (fun mc => if mc.stage == s then some mc else none)
      = l.filter (fun c => c.stage == s) := by
  induction l with
  | nil => rfl
  | cons c rest ih =>
    rw [List.filterMap_cons, List.filter_cons]
    by_cases hp : c.stage = s
    · have hb : (c.stage == s) = true := by simp [hp]
      rw [if_pos hb, if_pos hb]
      show c :: rest.filterMap (fun mc => if mc.stage == s then some mc else none)
        = c :: rest.filter (fun c => c.stage == s)
      rw [ih]
    · have hb : ¬ ((c.stage == s) = true) := by simp [hp]
      rw [if_neg hb, if_neg hb]
      exact ih

/-- C8: `get_clusters(s)` returns an order-preserving subsequence of the
map's cluster list (original tiling order), containing a cluster exactly
when it occurs in the map with stage equal to `s` — it is precisely the
stage-equality filter of the cluster list. -/
theorem get_clusters_correct (m : MapFile) (s : Stage) :
    (m.get_clusters s).Sublist m.map ∧
    (∀ c, c ∈ m.get_clusters s ↔ c ∈ m.map ∧ c.stage = s) ∧
    m.get_clusters s = m.map.filter (fun c => c.stage == s) := by
  have heq : m.get_clusters s = m.map.filter (fun c => c.stage == s) :=
    get_clusters_eq_filter m.map s
  refine ⟨?_, ?_, heq⟩
  · rw [heq]; exact List.filter_sublist m.map
  · intro c
    rw [heq, List.mem_filter]
    simp

end Kramer
